import Mathlib

/-!
# Verification of the market_tracker frontend against its specification

Shallow embedding of the TypeScript sources under `src/frontend/src` (and the
unnamed source parts) of the `clados/market_tracker` repository, together with
theorems settling the frozen claims about the change computation, the retry
wrapper, pagination, price validation and client-side search filtering.

JavaScript numbers are modelled as rationals (`ℚ`); timestamps (JS `Date`
values, compared via their millisecond epoch value) as integers (`Int`);
strings as Lean `String`/`List Char`.
-/

namespace MarketTracker

/-! ## Data model (src/frontend/src/types/market.ts) -/

/-- `PriceHistory` from `types/market.ts`: one price sample of a market.
`timestamp` is the JS `Date` in milliseconds since the epoch. -/
structure PriceHistory where
  timestamp : Int
  price : ℚ
  volume : ℚ
deriving Repr, DecidableEq

/-- `Market` from `types/market.ts`. -/
structure Market where
  id : Int
  ticker : String
  seriesTicker : Option String
  title : String
  subtitle : String
  category : String
  status : String
  currentProbability : ℚ
  volume24h : ℚ
  liquidity : ℚ
  openTime : Option String
  closeTime : Option String
  expirationTime : Option String
  resolutionRules : String
  tags : String
  createdAt : String
  updatedAt : String
  priceHistory : List PriceHistory
  related : List String
deriving Repr, DecidableEq

/-! ## Change computation (MarketCard.tsx lines 17-57, MarketDetail in
FilterBar.tsx lines 152-198)

Both components load the history, filter it to a 30-day trailing window
(`point.timestamp >= windowStart`), and when the windowed set is nonempty set
`calculatedPriceChange` (initially `0`) from the extrema of the windowed
prices.  `MarketDetail` stores the absolute change
`max(|current − min|, |current − max|)`; `MarketCard` additionally divides by
the current price when it is positive. -/

/-- Milliseconds per day: `24 * 60 * 60 * 1000`. -/
def msPerDay : Int := 24 * 60 * 60 * 1000

/-- `windowStart = new Date(now.getTime() - 30 * 24 * 60 * 60 * 1000)`. -/
def windowStart30 (now : Int) : Int := now - 30 * msPerDay

/-- `history.filter(point => point.timestamp >= windowStart)`. -/
def windowHistory (history : List PriceHistory) (now : Int) : List PriceHistory :=
  history.filter (fun point => windowStart30 now ≤ point.timestamp)

/-- `Math.min(...prices)` on the nonempty lists the components apply it to
(both guard on `windowHistory.length > 0`); the `[]` case is never reached
there and defaults to `0`. -/
def mathMin : List ℚ → ℚ
  | [] => 0
  | p :: ps => ps.foldl min p

/-- `Math.max(...prices)` on the nonempty lists the components apply it to. -/
def mathMax : List ℚ → ℚ
  | [] => 0
  | p :: ps => ps.foldl max p

/-- The value of `calculatedPriceChange` set by `MarketDetail` (FilterBar.tsx
lines 163-187) after loading `history`: `0` (the initial state) when no point
falls in the 30-day window, otherwise
`max(|currentPrice − minPrice|, |currentPrice − maxPrice|)` over the windowed
prices. -/
def marketDetailPriceChange (history : List PriceHistory) (currentPrice : ℚ) (now : Int) : ℚ :=
  let wh := windowHistory history now
  if wh.isEmpty then 0
  else
    let prices := wh.map (fun point => point.price)
    let minPrice := mathMin prices
    let maxPrice := mathMax prices
    let changeFromMin := |currentPrice - minPrice|
    let changeFromMax := |currentPrice - maxPrice|
    max changeFromMin changeFromMax

/-- The value of `calculatedPriceChange` set by `MarketCard` (MarketCard.tsx
lines 24-49): the same absolute change as `MarketDetail`, then
`absoluteChange / currentPrice` when `currentPrice > 0`, else `0`. -/
def marketCardPriceChange (history : List PriceHistory) (currentPrice : ℚ) (now : Int) : ℚ :=
  let wh := windowHistory history now
  if wh.isEmpty then 0
  else
    let prices := wh.map (fun point => point.price)
    let minPrice := mathMin prices
    let maxPrice := mathMax prices
    let changeFromMin := |currentPrice - minPrice|
    let changeFromMax := |currentPrice - maxPrice|
    let absoluteChange := max changeFromMin changeFromMax
    if 0 < currentPrice then absoluteChange / currentPrice else 0

/-- The earliest (smallest-timestamp) point of a list, used only to phrase the
specification formula the claims state. -/
def earliestPoint : List PriceHistory → Option PriceHistory
  | [] => none
  | p :: ps => some (ps.foldl (fun a b => if b.timestamp < a.timestamp then b else a) p)

/-- Written from the specification wording (§4.4), for comparison with the
code: `startPrice` = price of the earliest in-window point, and
`price_change = currentPrice − startPrice`. -/
def specPriceChange (history : List PriceHistory) (currentPrice : ℚ) (now : Int) : Option ℚ :=
  match earliestPoint (windowHistory history now) with
  | none => none
  | some start => some (currentPrice - start.price)

/-- Written from the specification wording (§4.4), for comparison with the
code: `change_percentage = price_change / startPrice` when `startPrice > 0`,
otherwise undefined. -/
def specChangePercentage (history : List PriceHistory) (currentPrice : ℚ) (now : Int) :
    Option ℚ :=
  match earliestPoint (windowHistory history now) with
  | none => none
  | some start =>
    if 0 < start.price then some ((currentPrice - start.price) / start.price) else none

/-! ## Retry wrapper (`BackendApiService.fetchWithRetry`, FilterBar.tsx
lines 427-463)

```
const maxRetries = API_CONFIG.RETRY_ATTEMPTS || retries;
for (let i = 0; i < maxRetries; i++) {
  try {
    const response = await fetch(url, ...);
    if (response.ok) return response;
    if (response.status === 429 && i < retries - 1) {
      await sleep(API_CONFIG.RETRY_DELAY * (i + 1)); continue;
    }
    throw new Error(...);                         // caught below
  } catch (error) {
    if (error.name === 'AbortError') throw error; // no retry
    if (i === maxRetries - 1) throw error;
    await sleep(API_CONFIG.RETRY_DELAY * (i + 1));
  }
}
throw new Error('Max retries exceeded');
```

The behaviour of the `i`-th `fetch` call is an input (`outcomes i`): it either
resolves with a response or rejects with a named error.  The embedding
returns the outcome of the whole call, how many `fetch` calls were made, and
the list of sleeps performed. -/

/-- A resolved `fetch` response: `ok`, `status`, and a server retry-after
hint (which `fetchWithRetry` never reads). -/
structure FetchResponse where
  ok : Bool
  status : Nat
  retryAfterMs : Option Nat
deriving Repr, DecidableEq

/-- What one `fetch` call does: resolve with a response, or reject with an
error carrying a `name` (e.g. `"AbortError"`). -/
inductive AttemptOutcome where
  | response (r : FetchResponse)
  | reject (errName : String)
deriving Repr, DecidableEq

/-- The errors `fetchWithRetry` can throw. -/
inductive FetchFailure where
  | apiRequestFailed (status : Nat)
  | rejected (errName : String)
  | maxRetriesExceeded
deriving Repr, DecidableEq

/-- Outcome of a `fetchWithRetry` call: a returned response or a thrown
error. -/
inductive FetchResult where
  | success (r : FetchResponse)
  | failure (e : FetchFailure)
deriving Repr, DecidableEq

/-- Full observable behaviour of one `fetchWithRetry` call. -/
structure RetryTrace where
  result : FetchResult
  fetchCount : Nat
  delays : List Nat
deriving Repr, DecidableEq

/-- `API_CONFIG.RETRY_DELAY * (i + 1)`: the sleep inserted after failed
attempt `i`. -/
def retryDelayMs (base i : Nat) : Nat := base * (i + 1)

/-- The `for` loop of `fetchWithRetry`, from attempt index `i` with `fuel`
iterations left (`fuel = maxRetries - i` at every call reachable from
`fetchWithRetry`); `fuel = 0` is loop exit, reaching
`throw new Error('Max retries exceeded')`. -/
def fetchLoop (base retriesParam maxRetries : Nat) (outcomes : Nat → AttemptOutcome) :
    Nat → Nat → RetryTrace
  | _, 0 => ⟨.failure .maxRetriesExceeded, 0, []⟩
  | i, fuel + 1 =>
    match outcomes i with
    | .response r =>
      if r.ok then ⟨.success r, 1, []⟩
      else if r.status = 429 ∧ i < retriesParam - 1 then
        let rest := fetchLoop base retriesParam maxRetries outcomes (i + 1) fuel
        ⟨rest.result, rest.fetchCount + 1, retryDelayMs base i :: rest.delays⟩
      else if i = maxRetries - 1 then
        ⟨.failure (.apiRequestFailed r.status), 1, []⟩
      else
        let rest := fetchLoop base retriesParam maxRetries outcomes (i + 1) fuel
        ⟨rest.result, rest.fetchCount + 1, retryDelayMs base i :: rest.delays⟩
    | .reject errName =>
      if errName = "AbortError" then ⟨.failure (.rejected errName), 1, []⟩
      else if i = maxRetries - 1 then ⟨.failure (.rejected errName), 1, []⟩
      else
        let rest := fetchLoop base retriesParam maxRetries outcomes (i + 1) fuel
        ⟨rest.result, rest.fetchCount + 1, retryDelayMs base i :: rest.delays⟩

/-- The retry-related fields of `API_CONFIG` (src/unnamed/part_005):
`RETRY_ATTEMPTS` defaults to `3`, `RETRY_DELAY` to `1000` ms. -/
structure ApiConfig where
  retryAttempts : Nat
  retryDelay : Nat
deriving Repr, DecidableEq

/-- The default configuration (no environment overrides). -/
def defaultApiConfig : ApiConfig := ⟨3, 1000⟩

/-- `maxRetries = API_CONFIG.RETRY_ATTEMPTS || retries` — JS `||` yields the
right operand when the left one is `0` (falsy). -/
def maxRetriesOf (cfg : ApiConfig) (retriesParam : Nat) : Nat :=
  if cfg.retryAttempts = 0 then retriesParam else cfg.retryAttempts

/-- `fetchWithRetry(url, options, retries)` as a function of the attempt
outcomes; `retriesParam` is the `retries` parameter (default `3`). -/
def fetchWithRetry (cfg : ApiConfig) (retriesParam : Nat)
    (outcomes : Nat → AttemptOutcome) : RetryTrace :=
  let maxRetries := maxRetriesOf cfg retriesParam
  fetchLoop cfg.retryDelay retriesParam maxRetries outcomes 0 maxRetries

/-- `getMarketDetail` (FilterBar.tsx lines 586-597): calls `fetchWithRetry`
and on any thrown error returns `null`; on success it parses the response
into a `Market` (`transformBackendMarket`, abstracted as `parse`). -/
def getMarketDetail (cfg : ApiConfig) (outcomes : Nat → AttemptOutcome)
    (parse : FetchResponse → Market) : Option Market :=
  match (fetchWithRetry cfg 3 outcomes).result with
  | .success r => some (parse r)
  | .failure _ => none

/-! ## Pagination (`Pagination.getPageNumbers`, Pagination.tsx lines 37-74) -/

/-- An entry of the `pages` array: a page number or the `'...'` marker. -/
inductive PageItem where
  | page (n : Nat)
  | dots
deriving Repr, DecidableEq

/-- `getPageNumbers` from Pagination.tsx lines 37-74.  JS
`Math.max(1, currentPage - 2)` agrees with the ℕ-truncated
`max 1 (currentPage - 2)` for every `currentPage : Nat`. -/
def getPageNumbers (currentPage totalPages : Nat) : List PageItem :=
  let maxVisible := 9
  if totalPages ≤ maxVisible then
    (List.range totalPages).map (fun i => .page (i + 1))
  else
    let start := max 1 (currentPage - 2)
    let stop := min totalPages (currentPage + 2)
    [PageItem.page 1]
      ++ (if 2 < start then [PageItem.dots] else [])
      ++ (((List.range (stop + 1 - start)).map (fun j => j + start)).filter
            (fun i => decide (1 < i ∧ i < totalPages))).map PageItem.page
      ++ (if stop < totalPages - 1 then [PageItem.dots] else [])
      ++ (if 1 < totalPages then [PageItem.page totalPages] else [])

/-- The numeric entries of the `pages` array, in order. -/
def pageNums (l : List PageItem) : List Nat :=
  l.filterMap (fun item => match item with | .page n => some n | .dots => none)

/-! ## Client-side search (`useMarkets.filteredMarkets`, src/unnamed/part_005
lines 113-116) -/

/-- `s.toLowerCase()`, character-wise. -/
def toLowerChars (s : String) : List Char := s.toList.map Char.toLower

/-- `hay.startsWith(sub)`-style prefix test on character lists. -/
def startsWithChars : List Char → List Char → Bool
  | [], _ => true
  | _ :: _, [] => false
  | a :: s, b :: t => a == b && startsWithChars s t

/-- JS `hay.includes(sub)`: `sub` occurs contiguously somewhere in `hay`. -/
def includesChars (sub : List Char) : List Char → Bool
  | [] => startsWithChars sub []
  | c :: t => startsWithChars sub (c :: t) || includesChars sub t

/-- `filteredMarkets` (src/unnamed/part_005 lines 113-116):
`markets.filter(market => !filters.search ||
market.title.toLowerCase().includes(filters.search.toLowerCase()))` —
JS `!s` is true exactly for the empty string. -/
def filteredMarkets (markets : List Market) (search : String) : List Market :=
  markets.filter (fun market =>
    search.isEmpty || includesChars (toLowerChars search) (toLowerChars market.title))

/-! ## Ingestion-side price validation (modelled from the spec)

The backend ingestion pipeline (the data-processor job) is not among the
sources under `src/`; only its deployment manifests and the frontend
consumers are.  The persistence-side validation of §4.1/§7/§8 is therefore
modelled from the spec. -/

/-- Modelled from the spec: persistence-side `PricePoint` of §3 (the ingested
time-series row). -/
structure PricePoint where
  timestamp : Int
  price : ℚ
  volume : ℚ
deriving Repr, DecidableEq

/-- Modelled from the spec: a raw source record before normalization; the
price may be missing (a required field absent). -/
structure RawPriceRecord where
  timestamp : Int
  price : Option ℚ
  volume : ℚ
deriving Repr, DecidableEq

/-- Modelled from the spec (§4.1, §8): a record that fails normalization —
missing required field, or price outside `[0,1]` — is skipped, never
coerced; an accepted record keeps its price unchanged. -/
def normalizeRecord (r : RawPriceRecord) : Option PricePoint :=
  match r.price with
  | none => none
  | some q => if 0 ≤ q ∧ q ≤ 1 then some ⟨r.timestamp, q, r.volume⟩ else none

/-- Modelled from the spec (§4.1, §7): process a batch of raw records,
returning the points to persist and the count of malformed (skipped)
records. -/
def normalizeRecords : List RawPriceRecord → List PricePoint × Nat
  | [] => ([], 0)
  | r :: rs =>
    let rest := normalizeRecords rs
    match normalizeRecord r with
    | some p => (p :: rest.1, rest.2)
    | none => (rest.1, rest.2 + 1)

/-- A backend `/history` response item (`BackendPriceHistoryResponse`,
FilterBar.tsx lines 416-420); `timestamp` stands for the already-parsed
`new Date(item.timestamp)` value. -/
structure BackendPriceHistoryItem where
  timestamp : Int
  price : ℚ
  volume : ℚ
deriving Repr, DecidableEq

/-- The response mapping of `getMarketHistory` (FilterBar.tsx lines 575-579):
field-by-field conversion; the price passes through unchanged. -/
def getMarketHistoryMap (data : List BackendPriceHistoryItem) : List PriceHistory :=
  data.map (fun item => ⟨item.timestamp, item.price, item.volume⟩)

/-! ## Helper lemmas: `Math.min`/`Math.max` folds -/

theorem foldl_min_le_init (l : List ℚ) (a : ℚ) : l.foldl min a ≤ a := by
  induction l generalizing a with
  | nil => simp
  | cons x xs ih => exact le_trans (ih (min a x)) (min_le_left a x)

theorem foldl_min_le_mem : ∀ (l : List ℚ) (a x : ℚ), x ∈ l → l.foldl min a ≤ x
  | y :: ys, a, x, hx => by
    rcases List.mem_cons.mp hx with rfl | h
    · exact le_trans (foldl_min_le_init ys (min a x)) (min_le_right a x)
    · exact foldl_min_le_mem ys (min a y) x h

theorem foldl_min_mem (l : List ℚ) (a : ℚ) : l.foldl min a = a ∨ l.foldl min a ∈ l := by
  induction l generalizing a with
  | nil => exact Or.inl rfl
  | cons y ys ih =>
    rcases ih (min a y) with h | h
    · rcases min_choice a y with hm | hm
      · exact Or.inl (by rw [List.foldl_cons, h, hm])
      · exact Or.inr (by rw [List.foldl_cons, h, hm]; exact List.mem_cons_self y ys)
    · exact Or.inr (List.mem_cons_of_mem y h)

theorem init_le_foldl_max (l : List ℚ) (a : ℚ) : a ≤ l.foldl max a := by
  induction l generalizing a with
  | nil => simp
  | cons x xs ih => exact le_trans (le_max_left a x) (ih (max a x))

theorem mem_le_foldl_max : ∀ (l : List ℚ) (a x : ℚ), x ∈ l → x ≤ l.foldl max a
  | y :: ys, a, x, hx => by
    rcases List.mem_cons.mp hx with rfl | h
    · exact le_trans (le_max_right a x) (init_le_foldl_max ys (max a x))
    · exact mem_le_foldl_max ys (max a y) x h

theorem foldl_max_mem (l : List ℚ) (a : ℚ) : l.foldl max a = a ∨ l.foldl max a ∈ l := by
  induction l generalizing a with
  | nil => exact Or.inl rfl
  | cons y ys ih =>
    rcases ih (max a y) with h | h
    · rcases max_choice a y with hm | hm
      · exact Or.inl (by rw [List.foldl_cons, h, hm])
      · exact Or.inr (by rw [List.foldl_cons, h, hm]; exact List.mem_cons_self y ys)
    · exact Or.inr (List.mem_cons_of_mem y h)

theorem mathMin_mem (l : List ℚ) (h : l ≠ []) : mathMin l ∈ l := by
  match l with
  | p :: ps =>
    show ps.foldl min p ∈ p :: ps
    rcases foldl_min_mem ps p with h1 | h1
    · rw [h1]; exact List.mem_cons_self p ps
    · exact List.mem_cons_of_mem p h1

theorem mathMin_le (l : List ℚ) {q : ℚ} (hq : q ∈ l) : mathMin l ≤ q := by
  match l with
  | p :: ps =>
    rcases List.mem_cons.mp hq with rfl | h
    · exact foldl_min_le_init ps q
    · exact foldl_min_le_mem ps p q h

theorem mathMax_mem (l : List ℚ) (h : l ≠ []) : mathMax l ∈ l := by
  match l with
  | p :: ps =>
    show ps.foldl max p ∈ p :: ps
    rcases foldl_max_mem ps p with h1 | h1
    · rw [h1]; exact List.mem_cons_self p ps
    · exact List.mem_cons_of_mem p h1

theorem le_mathMax (l : List ℚ) {q : ℚ} (hq : q ∈ l) : q ≤ mathMax l := by
  match l with
  | p :: ps =>
    rcases List.mem_cons.mp hq with rfl | h
    · exact init_le_foldl_max ps q
    · exact mem_le_foldl_max ps p q h

/-- The windowed price list (`const prices = windowHistory.map(point => point.price)`). -/
def windowPrices (history : List PriceHistory) (now : Int) : List ℚ :=
  (windowHistory history now).map (fun point => point.price)

theorem marketDetailPriceChange_eq (history : List PriceHistory) (c : ℚ) (now : Int)
    (h : (windowHistory history now).isEmpty = false) :
    marketDetailPriceChange history c now =
      max |c - mathMin (windowPrices history now)| |c - mathMax (windowPrices history now)| := by
  unfold marketDetailPriceChange
  simp [h, windowPrices]

theorem marketCardPriceChange_eq (history : List PriceHistory) (c : ℚ) (now : Int)
    (h : (windowHistory history now).isEmpty = false) :
    marketCardPriceChange history c now =
      (if 0 < c
        then max |c - mathMin (windowPrices history now)| |c - mathMax (windowPrices history now)| / c
        else 0) := by
  unfold marketCardPriceChange
  simp [h, windowPrices]

/-! ## Concrete inputs used by examples and counterexamples -/

/-- Two points in the window, price rising 0.40 → 0.55 (the spec's worked
example, with current price 0.55). -/
def exHistory : List PriceHistory := [⟨0, 2/5, 0⟩, ⟨1000, 11/20, 0⟩]

/-- Two points in the window, price falling 0.55 → 0.40. -/
def exHistoryDown : List PriceHistory := [⟨0, 11/20, 0⟩, ⟨1000, 2/5, 0⟩]

/-- Two points in the window, prices 0.40 then 0.50. -/
def exHistoryUp : List PriceHistory := [⟨0, 2/5, 0⟩, ⟨1000, 1/2, 0⟩]

/-- A run timestamp placing timestamp `0` exactly at the window start. -/
def exNow : Int := 30 * msPerDay

/-! ## C1 -/

/-- **C1** (amended): for every market with at least one price point inside
the trailing 30-day window, `min_price`/`max_price` are the extrema of the
windowed prices (they belong to the windowed set and bound it), and the
computed change is `max(|currentPrice − min|, |currentPrice − max|)` — the
extremum-distance variant, not `currentPrice − startPrice`.  On the spec's
worked example (0.40 at t0, 0.55 at t1, current 0.55) this still yields
change 0.15 with min 0.40 and max 0.55. -/
theorem change_stats_extrema_based
    (history : List PriceHistory) (currentPrice : ℚ) (now : Int)
    (hne : windowHistory history now ≠ []) :
    mathMin (windowPrices history now) ∈ windowPrices history now ∧
    mathMax (windowPrices history now) ∈ windowPrices history now ∧
    (∀ q ∈ windowPrices history now,
      mathMin (windowPrices history now) ≤ q ∧ q ≤ mathMax (windowPrices history now)) ∧
    marketDetailPriceChange history currentPrice now =
      max |currentPrice - mathMin (windowPrices history now)|
          |currentPrice - mathMax (windowPrices history now)| := by
  have hpne : windowPrices history now ≠ [] := by
    simp [windowPrices, hne]
  have hbe : (windowHistory history now).isEmpty = false := by
    simpa [List.isEmpty_iff] using hne
  exact ⟨mathMin_mem _ hpne, mathMax_mem _ hpne,
    fun q hq => ⟨mathMin_le _ hq, le_mathMax _ hq⟩,
    marketDetailPriceChange_eq history currentPrice now hbe⟩

/-- **C1** witness: the spec's worked example, evaluated. -/
theorem change_stats_extrema_based_witness :
    windowHistory exHistory exNow ≠ [] ∧
    marketDetailPriceChange exHistory (11/20) exNow =
      max |(11 : ℚ)/20 - mathMin (windowPrices exHistory exNow)|
          |(11 : ℚ)/20 - mathMax (windowPrices exHistory exNow)| ∧
    mathMin (windowPrices exHistory exNow) = 2/5 ∧
    mathMax (windowPrices exHistory exNow) = 11/20 ∧
    marketDetailPriceChange exHistory (11/20) exNow = 3/20 :=
  ⟨by decide, (change_stats_extrema_based exHistory (11/20) exNow (by decide)).2.2.2,
    by norm_num [windowPrices, windowHistory, windowStart30, msPerDay, exHistory, exNow,
      mathMin, min_def],
    by norm_num [windowPrices, windowHistory, windowStart30, msPerDay, exHistory, exNow,
      mathMax, max_def],
    by norm_num [marketDetailPriceChange, windowHistory, windowStart30, msPerDay, exHistory,
      exNow, mathMin, mathMax, min_def, max_def, abs]⟩

/-- **C1** counterexample: both points in the window, price falling from 0.55
(earliest) to 0.40, current price 0.40.  The claimed formula
`price_change = currentPrice − startPrice` gives −0.15, but the component
computes +0.15 (the distance to the farthest extremum). -/
theorem change_stats_start_delta_refuted :
    specPriceChange exHistoryDown (2/5) exNow = some (-(3/20)) ∧
    marketDetailPriceChange exHistoryDown (2/5) exNow = 3/20 ∧
    ((3 : ℚ)/20) ≠ -(3/20) :=
  ⟨by norm_num [specPriceChange, earliestPoint, windowHistory, windowStart30, msPerDay,
      exHistoryDown, exNow],
    by norm_num [marketDetailPriceChange, windowHistory, windowStart30, msPerDay,
      exHistoryDown, exNow, mathMin, mathMax, min_def, max_def, abs],
    by norm_num⟩

/-! ## C2 -/

/-- **C2** (amended): when *zero* points fall in the trailing window the
computed change statistics stay `0` (the component state is never updated)
and no change formula is evaluated; the computation is total, so it never
raises an error.  However the source guard is `windowHistory.length > 0`,
not `≥ 2`: a single in-window point does evaluate the formulas and yields
`|currentPrice − p.price|`, which can be nonzero. -/
theorem change_empty_window_zero :
    (∀ (history : List PriceHistory) (currentPrice : ℚ) (now : Int),
        windowHistory history now = [] →
        marketDetailPriceChange history currentPrice now = 0 ∧
        marketCardPriceChange history currentPrice now = 0) ∧
    (∀ (p : PriceHistory) (currentPrice : ℚ) (now : Int),
        windowStart30 now ≤ p.timestamp →
        marketDetailPriceChange [p] currentPrice now = |currentPrice - p.price|) := by
  constructor
  · intro history currentPrice now h
    constructor
    · unfold marketDetailPriceChange
      simp [h]
    · unfold marketCardPriceChange
      simp [h]
  · intro p currentPrice now h
    have hw : windowHistory [p] now = [p] := by
      simp [windowHistory, h]
    unfold marketDetailPriceChange
    rw [hw]
    simp [mathMin, mathMax]

/-- **C2** witness: a point 40 days old with `now` at day 40 falls outside
the 30-day window; both computed changes are `0`. -/
theorem change_empty_window_zero_witness :
    windowHistory [⟨0, 2/5, 0⟩] (40 * msPerDay) = [] ∧
    marketDetailPriceChange [⟨0, 2/5, 0⟩] (1/2) (40 * msPerDay) = 0 ∧
    marketCardPriceChange [⟨0, 2/5, 0⟩] (1/2) (40 * msPerDay) = 0 :=
  ⟨by decide,
    (change_empty_window_zero.1 [⟨0, 2/5, 0⟩] (1/2) (40 * msPerDay) (by decide)).1,
    (change_empty_window_zero.1 [⟨0, 2/5, 0⟩] (1/2) (40 * msPerDay) (by decide)).2⟩

/-- **C2** counterexample: a *single* in-window point (price 0.40) with
current price 0.55 yields computed change 0.15 ≠ 0, refuting "a single
in-window point must not yield a nonzero computed change". -/
theorem single_point_nonzero_change :
    marketDetailPriceChange [⟨0, 2/5, 0⟩] (11/20) exNow = 3/20 ∧ ((3 : ℚ)/20) ≠ 0 :=
  ⟨by norm_num [marketDetailPriceChange, windowHistory, windowStart30, msPerDay, exNow,
      mathMin, mathMax, min_def, max_def, abs],
    by norm_num⟩

/-! ## C3 -/

/-- **C3** (amended): `MarketCard`'s percentage change divides by the
*current* price, not the start-of-window price: whenever
`currentPrice > 0`, `marketCardPriceChange · currentPrice` recovers the
absolute change computed by `MarketDetail`, and when `currentPrice ≤ 0` the
percentage is `0` with no division performed. -/
theorem card_percentage_divides_by_current
    (history : List PriceHistory) (currentPrice : ℚ) (now : Int) :
    (0 < currentPrice →
      marketCardPriceChange history currentPrice now * currentPrice =
        marketDetailPriceChange history currentPrice now) ∧
    (¬ 0 < currentPrice → marketCardPriceChange history currentPrice now = 0) := by
  by_cases hw : (windowHistory history now).isEmpty
  · constructor <;> intro hc <;>
      simp [marketCardPriceChange, marketDetailPriceChange, hw]
  · have hw2 : (windowHistory history now).isEmpty = false := by
      simpa using hw
    constructor
    · intro hc
      rw [marketCardPriceChange_eq history currentPrice now hw2,
        marketDetailPriceChange_eq history currentPrice now hw2, if_pos hc]
      exact div_mul_cancel₀ _ (ne_of_gt hc)
    · intro hc
      rw [marketCardPriceChange_eq history currentPrice now hw2, if_neg hc]

/-- **C3** witness: prices 0.40, 0.50 in the window, current 0.80; the
percentage times the current price equals the absolute change. -/
theorem card_percentage_divides_by_current_witness :
    (0 : ℚ) < 4/5 ∧
    marketCardPriceChange exHistoryUp (4/5) exNow * (4/5) =
      marketDetailPriceChange exHistoryUp (4/5) exNow :=
  ⟨by norm_num, (card_percentage_divides_by_current exHistoryUp (4/5) exNow).1 (by norm_num)⟩

/-- **C3** counterexample: prices 0.40 (earliest), 0.50 in the window,
current price 0.80.  The claimed formula `price_change / startPrice` gives
(0.8 − 0.4) / 0.4 = 1, but `MarketCard` computes 0.4 / 0.8 = 0.5. -/
theorem percentage_divisor_not_start :
    specChangePercentage exHistoryUp (4/5) exNow = some 1 ∧
    marketCardPriceChange exHistoryUp (4/5) exNow = 1/2 ∧
    ((1 : ℚ)/2) ≠ 1 :=
  ⟨by norm_num [specChangePercentage, earliestPoint, windowHistory, windowStart30, msPerDay,
      exHistoryUp, exNow],
    by norm_num [marketCardPriceChange, windowHistory, windowStart30, msPerDay,
      exHistoryUp, exNow, mathMin, mathMax, min_def, max_def, abs],
    by norm_num⟩

/-! ## Helper lemmas: the retry loop -/

/-- A response with its retry-after hint erased: what `fetchWithRetry`
actually inspects of each attempt outcome. -/
def stripHint : AttemptOutcome → AttemptOutcome
  | .response r => .response ⟨r.ok, r.status, none⟩
  | .reject errName => .reject errName

/-- An attempt outcome that neither succeeds nor aborts: a non-ok response,
or a rejection whose error is not named `AbortError`. -/
def failsNonAbort : AttemptOutcome → Bool
  | .response r => !r.ok
  | .reject errName => !(errName == "AbortError")

theorem fetchLoop_fetchCount_le (base rp mr : Nat) (o : Nat → AttemptOutcome) :
    ∀ (fuel i : Nat), (fetchLoop base rp mr o i fuel).fetchCount ≤ fuel
  | 0, i => by simp [fetchLoop]
  | fuel + 1, i => by
    have ih := fetchLoop_fetchCount_le base rp mr o fuel (i + 1)
    unfold fetchLoop
    cases ho : o i with
    | response r =>
      by_cases h1 : r.ok = true
      · simp [h1]
      · by_cases h2 : r.status = 429 ∧ i < rp - 1
        · simp only [h1, h2]
          simpa using Nat.succ_le_succ ih
        · by_cases h3 : i = mr - 1
          · subst h3
            simp [h1, h2]
          · simp only [h1, h2, h3]
            simp only [if_neg h3, if_false, Bool.false_eq_true, ite_false, if_neg h2,
              if_neg h1]
            simpa using Nat.succ_le_succ ih
    | reject errName =>
      by_cases h1 : errName = "AbortError"
      · simp [h1]
      · by_cases h3 : i = mr - 1
        · subst h3
          simp [h1]
        · simp only [if_neg h1, if_neg h3]
          simpa using Nat.succ_le_succ ih

theorem delays_cons_range (base i k : Nat) :
    retryDelayMs base i :: (List.range k).map (fun j => retryDelayMs base (i + 1 + j)) =
      (List.range (k + 1)).map (fun j => retryDelayMs base (i + j)) := by
  rw [List.range_succ_eq_map, List.map_cons, List.map_map]
  refine congrArg₂ List.cons (by simp) (List.map_congr_left ?_)
  intro a ha
  exact congrArg (retryDelayMs base) (by omega)

theorem fetchLoop_delays_linear (base rp mr : Nat) (o : Nat → AttemptOutcome) :
    ∀ (fuel i : Nat), ∃ k,
      (fetchLoop base rp mr o i fuel).delays =
        (List.range k).map (fun j => retryDelayMs base (i + j))
  | 0, i => ⟨0, by simp [fetchLoop]⟩
  | fuel + 1, i => by
    obtain ⟨k, hk⟩ := fetchLoop_delays_linear base rp mr o fuel (i + 1)
    have hcons : retryDelayMs base i :: (fetchLoop base rp mr o (i + 1) fuel).delays =
        (List.range (k + 1)).map (fun j => retryDelayMs base (i + j)) := by
      rw [hk]; exact delays_cons_range base i k
    unfold fetchLoop
    cases ho : o i with
    | response r =>
      by_cases h1 : r.ok = true
      · exact ⟨0, by simp [h1]⟩
      · by_cases h2 : r.status = 429 ∧ i < rp - 1
        · refine ⟨k + 1, ?_⟩
          simp only [h1, h2]
          simpa using hcons
        · by_cases h3 : i = mr - 1
          · subst h3
            exact ⟨0, by simp [h1, h2]⟩
          · refine ⟨k + 1, ?_⟩
            simp only [if_neg h3, if_false, Bool.false_eq_true, ite_false, if_neg h2,
              if_neg h1]
            simpa using hcons
    | reject errName =>
      by_cases h1 : errName = "AbortError"
      · exact ⟨0, by simp [h1]⟩
      · by_cases h3 : i = mr - 1
        · subst h3
          exact ⟨0, by simp [h1]⟩
        · refine ⟨k + 1, ?_⟩
          simp only [if_neg h1, if_neg h3]
          simpa using hcons

theorem fetchLoop_hint_blind (base rp mr : Nat) (o1 o2 : Nat → AttemptOutcome)
    (h : ∀ n, stripHint (o1 n) = stripHint (o2 n)) :
    ∀ (fuel i : Nat),
      (fetchLoop base rp mr o1 i fuel).delays = (fetchLoop base rp mr o2 i fuel).delays ∧
      (fetchLoop base rp mr o1 i fuel).fetchCount = (fetchLoop base rp mr o2 i fuel).fetchCount
  | 0, i => ⟨rfl, rfl⟩
  | fuel + 1, i => by
    have ih := fetchLoop_hint_blind base rp mr o1 o2 h fuel (i + 1)
    have hi := h i
    unfold fetchLoop
    cases ho1 : o1 i with
    | response r1 =>
      cases ho2 : o2 i with
      | response r2 =>
        rw [ho1, ho2] at hi
        simp only [stripHint, AttemptOutcome.response.injEq, FetchResponse.mk.injEq,
          and_true] at hi
        obtain ⟨hok, hst⟩ := hi
        by_cases h1 : r2.ok = true
        · simp [hok, h1]
        · by_cases h2 : r2.status = 429 ∧ i < rp - 1
          · simp only [hok, hst, if_neg h1, if_pos h2]
            exact ⟨by simp [ih.1], by simp [ih.2]⟩
          · by_cases h3 : i = mr - 1
            · simp only [hok, hst, if_neg h1, if_neg h2, if_pos h3]
              exact ⟨trivial, trivial⟩
            · simp only [hok, hst, if_neg h1, if_neg h2, if_neg h3]
              exact ⟨by simp [ih.1], by simp [ih.2]⟩
      | reject e2 =>
        rw [ho1, ho2] at hi
        simp [stripHint] at hi
    | reject e1 =>
      cases ho2 : o2 i with
      | response r2 =>
        rw [ho1, ho2] at hi
        simp [stripHint] at hi
      | reject e2 =>
        rw [ho1, ho2] at hi
        simp only [stripHint, AttemptOutcome.reject.injEq] at hi
        by_cases h1 : e2 = "AbortError"
        · simp [hi, h1]
        · by_cases h3 : i = mr - 1
          · simp only [hi, if_neg h1, if_pos h3]
            exact ⟨trivial, trivial⟩
          · simp only [hi, if_neg h1, if_neg h3]
            exact ⟨by simp [ih.1], by simp [ih.2]⟩

theorem fetchLoop_all_fail (base rp mr : Nat) (o : Nat → AttemptOutcome)
    (h : ∀ n, failsNonAbort (o n) = true) :
    ∀ (fuel i : Nat), ∃ e, (fetchLoop base rp mr o i fuel).result = .failure e
  | 0, i => ⟨.maxRetriesExceeded, rfl⟩
  | fuel + 1, i => by
    obtain ⟨e, he⟩ := fetchLoop_all_fail base rp mr o h fuel (i + 1)
    have hi := h i
    unfold fetchLoop
    cases ho : o i with
    | response r =>
      rw [ho] at hi
      simp only [failsNonAbort, Bool.not_eq_true'] at hi
      by_cases h2 : r.status = 429 ∧ i < rp - 1
      · exact ⟨e, by simp only [hi, h2]; simpa using he⟩
      · by_cases h3 : i = mr - 1
        · subst h3
          exact ⟨.apiRequestFailed r.status, by simp [hi, h2]⟩
        · refine ⟨e, ?_⟩
          simp only [if_neg h3, if_false, Bool.false_eq_true, ite_false, if_neg h2,
            if_neg, hi]
          simpa using he
    | reject errName =>
      rw [ho] at hi
      simp only [failsNonAbort, Bool.not_eq_true', beq_eq_false_iff_ne, ne_eq] at hi
      by_cases h3 : i = mr - 1
      · subst h3
        exact ⟨.rejected errName, by simp [hi]⟩
      · refine ⟨e, ?_⟩
        simp only [if_neg hi, if_neg h3]
        simpa using he

/-! ## Concrete attempt streams used by examples and counterexamples -/

/-- First attempt: 429 carrying a retry-after hint of 7777 ms; afterwards 200. -/
def hintedOutcomes : Nat → AttemptOutcome
  | 0 => .response ⟨false, 429, some 7777⟩
  | _ + 1 => .response ⟨true, 200, none⟩

/-- Same as `hintedOutcomes` with the hint erased. -/
def unhintedOutcomes : Nat → AttemptOutcome
  | 0 => .response ⟨false, 429, none⟩
  | _ + 1 => .response ⟨true, 200, none⟩

/-- The spec's backoff scenario: 429 three times, then 200. -/
def backoff429Outcomes : Nat → AttemptOutcome
  | 0 => .response ⟨false, 429, none⟩
  | 1 => .response ⟨false, 429, none⟩
  | 2 => .response ⟨false, 429, none⟩
  | _ + 3 => .response ⟨true, 200, none⟩

/-- Every attempt yields a 500 response. -/
def failing500 : Nat → AttemptOutcome := fun _ => .response ⟨false, 500, none⟩

/-- A concrete `Market` value for instantiating witnesses. -/
def exampleMarket : Market :=
  { id := 1, ticker := "KXEX-1", seriesTicker := none, title := "Example Market",
    subtitle := "", category := "Test", status := "active", currentProbability := 1/2,
    volume24h := 0, liquidity := 0, openTime := none, closeTime := none,
    expirationTime := none, resolutionRules := "", tags := "", createdAt := "",
    updatedAt := "", priceHistory := [], related := [] }

/-! ## C4 -/

/-- **C4** (amended): on failed attempts (429, other non-ok statuses, or
connection failures other than aborts) `fetchWithRetry` retries with a
*linear* delay `RETRY_DELAY × (attempt + 1)` — no exponential growth, no
jitter, no cap — for at most the configured `maxRetries` attempts; and a
retry-after hint carried by a response is ignored: it affects neither the
delays slept nor the number of attempts. -/
theorem retry_linear_delay_no_hint :
    (∀ (cfg : ApiConfig) (rp : Nat) (o : Nat → AttemptOutcome), ∃ k,
        (fetchWithRetry cfg rp o).delays =
          (List.range k).map (fun j => cfg.retryDelay * (j + 1))) ∧
    (∀ (cfg : ApiConfig) (rp : Nat) (o : Nat → AttemptOutcome),
        (fetchWithRetry cfg rp o).fetchCount ≤ maxRetriesOf cfg rp) ∧
    (∀ (cfg : ApiConfig) (rp : Nat) (o1 o2 : Nat → AttemptOutcome),
        (∀ n, stripHint (o1 n) = stripHint (o2 n)) →
        (fetchWithRetry cfg rp o1).delays = (fetchWithRetry cfg rp o2).delays ∧
        (fetchWithRetry cfg rp o1).fetchCount = (fetchWithRetry cfg rp o2).fetchCount) := by
  refine ⟨?_, ?_, ?_⟩
  · intro cfg rp o
    obtain ⟨k, hk⟩ :=
      fetchLoop_delays_linear cfg.retryDelay rp (maxRetriesOf cfg rp) o (maxRetriesOf cfg rp) 0
    exact ⟨k, by simpa [fetchWithRetry, retryDelayMs] using hk⟩
  · intro cfg rp o
    simpa [fetchWithRetry] using
      fetchLoop_fetchCount_le cfg.retryDelay rp (maxRetriesOf cfg rp) o (maxRetriesOf cfg rp) 0
  · intro cfg rp o1 o2 h
    simpa [fetchWithRetry] using
      fetchLoop_hint_blind cfg.retryDelay rp (maxRetriesOf cfg rp) o1 o2 h (maxRetriesOf cfg rp) 0

/-- **C4** witness: erasing the 7777 ms retry-after hint changes nothing
about the delays. -/
theorem retry_linear_delay_no_hint_witness :
    (fetchWithRetry defaultApiConfig 3 hintedOutcomes).delays =
      (fetchWithRetry defaultApiConfig 3 unhintedOutcomes).delays :=
  (retry_linear_delay_no_hint.2.2 defaultApiConfig 3 hintedOutcomes unhintedOutcomes
    (fun n => by cases n <;> rfl)).1

/-- **C4** counterexample: a 429 response carrying a retry-after hint of
7777 ms is followed by a 1000 ms delay (`RETRY_DELAY × 1`), not the hinted
value — the hint does not override the computed delay. -/
theorem retry_after_hint_ignored :
    (fetchWithRetry defaultApiConfig 3 hintedOutcomes).delays = [1000] ∧
    (1000 : Nat) ≠ 7777 :=
  ⟨by decide, by decide⟩

/-! ## C5 -/

/-- **C5**: when every attempt fails (non-ok response or non-abort
connection failure), the wrapper's outcome is a failure *value* handed to
its caller — a thrown `Error` the caller catches, not a process abort — and
the caller can treat the unit of work as skippable: `getMarketDetail` maps
it to `null`. -/
theorem retry_exhaustion_skippable (cfg : ApiConfig) (rp : Nat)
    (o : Nat → AttemptOutcome) (h : ∀ n, failsNonAbort (o n) = true) :
    (∃ e, (fetchWithRetry cfg rp o).result = .failure e) ∧
    (∀ parse, getMarketDetail cfg o parse = none) := by
  have main : ∀ rp2, ∃ e, (fetchWithRetry cfg rp2 o).result = .failure e := by
    intro rp2
    simpa [fetchWithRetry] using
      fetchLoop_all_fail cfg.retryDelay rp2 (maxRetriesOf cfg rp2) o h (maxRetriesOf cfg rp2) 0
  refine ⟨main rp, ?_⟩
  intro parse
  obtain ⟨e, he⟩ := main 3
  simp [getMarketDetail, he]

/-- **C5** witness: exhausting retries on a stream of 500s makes
`getMarketDetail` return `null` instead of propagating a fatal error. -/
theorem retry_exhaustion_skippable_witness :
    getMarketDetail defaultApiConfig failing500 (fun _ => exampleMarket) = none :=
  (retry_exhaustion_skippable defaultApiConfig 3 failing500 (fun _ => rfl)).2
    (fun _ => exampleMarket)

/-! ## C6 -/

/-- **C6** (amended): with the configured maximum attempt count raised to 4,
the 429-429-429-200 scenario performs exactly 3 retry delays
(1000, 2000, 3000 ms) followed by one successful fetch — 4 attempts, the
last succeeding; and for every configuration and attempt stream the number
of fetch attempts never exceeds the configured maximum.  (With the default
maximum of 3 the scenario instead exhausts retries; see the
counterexample.) -/
theorem backoff_scenario_four_attempts :
    fetchWithRetry ⟨4, 1000⟩ 3 backoff429Outcomes =
      ⟨.success ⟨true, 200, none⟩, 4, [1000, 2000, 3000]⟩ ∧
    ∀ (cfg : ApiConfig) (rp : Nat) (o : Nat → AttemptOutcome),
      (fetchWithRetry cfg rp o).fetchCount ≤ maxRetriesOf cfg rp :=
  ⟨by decide, fun cfg rp o => by
    simpa [fetchWithRetry] using
      fetchLoop_fetchCount_le cfg.retryDelay rp (maxRetriesOf cfg rp) o (maxRetriesOf cfg rp) 0⟩

/-- **C6** counterexample: with the default configuration
(`RETRY_ATTEMPTS = 3`), 429 three times then 200 makes only 3 attempts with
2 retry delays and ends in exhaustion — not "exactly 3 retry delays followed
by one successful fetch". -/
theorem backoff_scenario_default_exhausts :
    (fetchWithRetry defaultApiConfig 3 backoff429Outcomes).delays.length = 2 ∧
    (fetchWithRetry defaultApiConfig 3 backoff429Outcomes).result =
      .failure (.apiRequestFailed 429) ∧
    (2 : Nat) ≠ 3 :=
  ⟨by decide, by decide, by decide⟩

/-! ## C8 -/

/-- **C8**: wherever the retry loop stands (any attempt index `i`, any
number of remaining iterations), a fetch attempt that rejects with an error
named `AbortError` ends the whole call immediately: that error is rethrown,
exactly this one fetch happens from that point on, and no retry delay is
inserted.  (`fetchWithRetry` enters the loop at `i = 0` with
`fuel = maxRetries`, so this covers every attempt of every call.) -/
theorem abort_error_stops_retries (base rp mr : Nat) (o : Nat → AttemptOutcome)
    (i fuel : Nat) (h : o i = .reject "AbortError") :
    fetchLoop base rp mr o i (fuel + 1) =
      ⟨.failure (.rejected "AbortError"), 1, []⟩ := by
  unfold fetchLoop
  rw [h]
  simp

/-- **C8** witness: an immediately aborting stream. -/
theorem abort_error_stops_retries_witness :
    fetchLoop 1000 3 3 (fun _ => .reject "AbortError") 0 3 =
      ⟨.failure (.rejected "AbortError"), 1, []⟩ :=
  abort_error_stops_retries 1000 3 3 (fun _ => .reject "AbortError") 0 2 rfl

/-! ## Helper lemmas: record normalization -/

theorem normalizeRecord_some {r : RawPriceRecord} {p : PricePoint}
    (h : normalizeRecord r = some p) :
    (0 ≤ p.price ∧ p.price ≤ 1) ∧ r.price = some p.price ∧ r.timestamp = p.timestamp := by
  cases hq : r.price with
  | none =>
    simp [normalizeRecord, hq] at h
  | some q =>
    simp only [normalizeRecord, hq] at h
    by_cases hb : 0 ≤ q ∧ q ≤ 1
    · rw [if_pos hb] at h
      obtain rfl : (⟨r.timestamp, q, r.volume⟩ : PricePoint) = p := Option.some.inj h
      exact ⟨hb, rfl, rfl⟩
    · rw [if_neg hb] at h
      exact Option.noConfusion h

theorem normalizeRecords_mem {rs : List RawPriceRecord} {p : PricePoint}
    (hp : p ∈ (normalizeRecords rs).1) :
    ∃ r ∈ rs, normalizeRecord r = some p := by
  induction rs with
  | nil => cases hp
  | cons r rs ih =>
    simp only [normalizeRecords] at hp
    cases hr : normalizeRecord r with
    | some q =>
      simp only [hr] at hp
      rcases List.mem_cons.mp hp with rfl | hmem
      · exact ⟨r, List.mem_cons_self r rs, hr⟩
      · obtain ⟨r2, hr2, h2⟩ := ih hmem
        exact ⟨r2, List.mem_cons_of_mem r hr2, h2⟩
    | none =>
      simp only [hr] at hp
      obtain ⟨r2, hr2, h2⟩ := ih hp
      exact ⟨r2, List.mem_cons_of_mem r hr2, h2⟩

theorem normalizeRecords_length (rs : List RawPriceRecord) :
    (normalizeRecords rs).1.length + (normalizeRecords rs).2 = rs.length := by
  induction rs with
  | nil => rfl
  | cons r rs ih =>
    simp only [normalizeRecords]
    cases hr : normalizeRecord r <;> simp [hr] <;> omega

/-! ## C7 -/

/-- **C7**: every persisted `PricePoint` has its price in `[0,1]`; a record
that fails validation is rejected and counted as malformed (accepted plus
malformed counts exhaust the batch); no price is ever clamped — each
persisted price equals the corresponding input price unchanged — and the
cited frontend history mapping also passes prices through unchanged. -/
theorem persisted_prices_in_unit_interval :
    (∀ (rs : List RawPriceRecord) (p : PricePoint),
        p ∈ (normalizeRecords rs).1 → 0 ≤ p.price ∧ p.price ≤ 1) ∧
    (∀ (rs : List RawPriceRecord) (p : PricePoint),
        p ∈ (normalizeRecords rs).1 →
        ∃ r ∈ rs, r.price = some p.price ∧ r.timestamp = p.timestamp) ∧
    (∀ rs : List RawPriceRecord,
        (normalizeRecords rs).1.length + (normalizeRecords rs).2 = rs.length) ∧
    (∀ data : List BackendPriceHistoryItem,
        (getMarketHistoryMap data).map (fun q => q.price) =
          data.map (fun item => item.price)) := by
  refine ⟨?_, ?_, normalizeRecords_length, ?_⟩
  · intro rs p hp
    obtain ⟨r, _, hr⟩ := normalizeRecords_mem hp
    exact (normalizeRecord_some hr).1
  · intro rs p hp
    obtain ⟨r, hmem, hr⟩ := normalizeRecords_mem hp
    exact ⟨r, hmem, (normalizeRecord_some hr).2⟩
  · intro data
    simp [getMarketHistoryMap, List.map_map]

/-- A batch with one valid record, one out-of-range price (1.5) and one
record missing its price. -/
def exRawRecords : List RawPriceRecord :=
  [⟨0, some (1/2), 1⟩, ⟨1, some (3/2), 1⟩, ⟨2, none, 1⟩]

/-- **C7** witness: the accepted point of `exRawRecords` is in range. -/
theorem persisted_prices_in_unit_interval_witness :
    0 ≤ (⟨0, 1/2, 1⟩ : PricePoint).price ∧ (⟨0, 1/2, 1⟩ : PricePoint).price ≤ 1 :=
  persisted_prices_in_unit_interval.1 exRawRecords ⟨0, 1/2, 1⟩
    (by norm_num [exRawRecords, normalizeRecords, normalizeRecord])

/-! ## C10 -/

/-- **C10**: with an empty search string the client-side search filter is the
identity (every market kept, unchanged, in order); with a non-empty search
string it keeps exactly the markets whose lower-cased title contains the
lower-cased search string (case-insensitive containment). -/
theorem filteredMarkets_search_semantics :
    (∀ markets : List Market, filteredMarkets markets "" = markets) ∧
    (∀ (markets : List Market) (search : String), search.isEmpty = false →
        filteredMarkets markets search =
          markets.filter (fun market =>
            includesChars (toLowerChars search) (toLowerChars market.title))) ∧
    (∀ (markets : List Market) (search : String) (m : Market), search.isEmpty = false →
        (m ∈ filteredMarkets markets search ↔
          m ∈ markets ∧
            includesChars (toLowerChars search) (toLowerChars m.title) = true)) := by
  refine ⟨?_, ?_, ?_⟩
  · intro markets
    simp only [filteredMarkets, List.filter_eq_self]
    intro a ha
    rfl
  · intro markets search hs
    simp [filteredMarkets, hs]
  · intro markets search m hs
    simp [filteredMarkets, hs, List.mem_filter]

/-- **C10** witness: a non-empty search applied to a one-market list. -/
theorem filteredMarkets_search_semantics_witness :
    filteredMarkets [exampleMarket] "market" =
      [exampleMarket].filter (fun market =>
        includesChars (toLowerChars "market") (toLowerChars market.title)) :=
  filteredMarkets_search_semantics.2.1 [exampleMarket] "market" rfl

/-! ## Helper lemmas: pagination -/

theorem pageNums_cons_page (n : Nat) (l : List PageItem) :
    pageNums (PageItem.page n :: l) = n :: pageNums l := rfl

theorem pageNums_cons_dots (l : List PageItem) :
    pageNums (PageItem.dots :: l) = pageNums l := rfl

theorem pageNums_append (l1 l2 : List PageItem) :
    pageNums (l1 ++ l2) = pageNums l1 ++ pageNums l2 :=
  List.filterMap_append l1 l2 _

theorem pageNums_dots_if (c : Prop) [Decidable c] :
    pageNums (if c then [PageItem.dots] else []) = [] := by
  by_cases h : c <;> simp [h, pageNums]

theorem pageNums_map_page (f : Nat → Nat) (l : List Nat) :
    pageNums (l.map (fun i => PageItem.page (f i))) = l.map f := by
  induction l with
  | nil => rfl
  | cons x xs ih => simp only [List.map_cons, pageNums_cons_page, ih]

theorem pageNums_map_page_id (l : List Nat) : pageNums (l.map PageItem.page) = l := by
  induction l with
  | nil => rfl
  | cons x xs ih => simp only [List.map_cons, pageNums_cons_page, ih]

/-- The middle block of the paginator (the in-range pages strictly between 1
and `totalPages`) is strictly increasing. -/
theorem midFilter_pairwise (S tp k : Nat) :
    (((List.range k).map (fun j => j + S)).filter
      (fun i => decide (1 < i ∧ i < tp))).Pairwise (· < ·) :=
  List.Pairwise.sublist (List.filter_sublist _)
    ((List.pairwise_lt_range k).map _ (fun a b hab => by omega))

/-- In the `totalPages > 9` branch, the numeric entries of the page list are
`1`, the filtered middle block, then `totalPages`. -/
theorem pageNums_big (currentPage totalPages : Nat) (hsmall : ¬ totalPages ≤ 9)
    (h1tp : 1 < totalPages) :
    pageNums (getPageNumbers currentPage totalPages) =
      1 :: ((((List.range
            (min totalPages (currentPage + 2) + 1 - max 1 (currentPage - 2))).map
          (fun j => j + max 1 (currentPage - 2))).filter
          (fun i => decide (1 < i ∧ i < totalPages))) ++ [totalPages]) := by
  simp only [getPageNumbers, if_neg hsmall, if_pos h1tp, pageNums_append, pageNums_dots_if,
    pageNums_map_page_id, pageNums_cons_page]
  simp [pageNums]

/-! ## C9 -/

/-- **C9**: for every `totalPages ≥ 1` and every `currentPage` with
`1 ≤ currentPage ≤ totalPages`, the list built by `getPageNumbers` contains
the page numbers `1`, `totalPages` and `currentPage`, and its numeric
entries are strictly increasing — hence duplicate-free. -/
theorem getPageNumbers_contains_and_sorted (currentPage totalPages : Nat)
    (h1 : 1 ≤ totalPages) (h2 : 1 ≤ currentPage) (h3 : currentPage ≤ totalPages) :
    1 ∈ pageNums (getPageNumbers currentPage totalPages) ∧
    totalPages ∈ pageNums (getPageNumbers currentPage totalPages) ∧
    currentPage ∈ pageNums (getPageNumbers currentPage totalPages) ∧
    (pageNums (getPageNumbers currentPage totalPages)).Pairwise (· < ·) := by
  by_cases hsmall : totalPages ≤ 9
  · have hL : pageNums (getPageNumbers currentPage totalPages) =
        (List.range totalPages).map (fun i => i + 1) := by
      simp only [getPageNumbers, if_pos hsmall]
      exact pageNums_map_page (fun i => i + 1) (List.range totalPages)
    rw [hL]
    refine ⟨?_, ?_, ?_, ?_⟩
    · exact List.mem_map.mpr ⟨0, List.mem_range.mpr (by omega), by omega⟩
    · exact List.mem_map.mpr ⟨totalPages - 1, List.mem_range.mpr (by omega), by omega⟩
    · exact List.mem_map.mpr ⟨currentPage - 1, List.mem_range.mpr (by omega), by omega⟩
    · exact (List.pairwise_lt_range totalPages).map _ (fun a b hab => by omega)
  · have h1tp : 1 < totalPages := by omega
    rw [pageNums_big currentPage totalPages hsmall h1tp]
    refine ⟨List.mem_cons_self _ _, ?_, ?_, ?_⟩
    · exact List.mem_cons_of_mem _
        (List.mem_append.mpr (Or.inr (List.mem_singleton.mpr rfl)))
    · by_cases hcp1 : currentPage = 1
      · subst hcp1
        exact List.mem_cons_self _ _
      · by_cases hcptp : currentPage = totalPages
        · subst hcptp
          exact List.mem_cons_of_mem _
            (List.mem_append.mpr (Or.inr (List.mem_singleton.mpr rfl)))
        · refine List.mem_cons_of_mem _ (List.mem_append.mpr (Or.inl ?_))
          refine List.mem_filter.mpr ⟨?_, ?_⟩
          · refine List.mem_map.mpr
              ⟨currentPage - max 1 (currentPage - 2), List.mem_range.mpr ?_, ?_⟩
            · omega
            · omega
          · simp only [decide_eq_true_eq]
            exact ⟨by omega, by omega⟩
    · refine List.pairwise_cons.mpr ⟨?_, ?_⟩
      · intro b hb
        rcases List.mem_append.mp hb with hbF | hbT
        · have hbp := (List.mem_filter.mp hbF).2
          simp only [decide_eq_true_eq] at hbp
          omega
        · have hb2 := List.mem_singleton.mp hbT
          omega
      · refine List.pairwise_append.mpr
          ⟨midFilter_pairwise _ _ _, List.pairwise_singleton _ _, ?_⟩
        intro a ha b hb
        have hb2 := List.mem_singleton.mp hb
        have hap := (List.mem_filter.mp ha).2
        simp only [decide_eq_true_eq] at hap
        omega

/-- **C9** witness: `currentPage = 10`, `totalPages = 20`. -/
theorem getPageNumbers_contains_and_sorted_witness :
    (1 ≤ 20 ∧ 1 ≤ 10 ∧ 10 ≤ 20) ∧
    (1 ∈ pageNums (getPageNumbers 10 20) ∧
      20 ∈ pageNums (getPageNumbers 10 20) ∧
      10 ∈ pageNums (getPageNumbers 10 20) ∧
      (pageNums (getPageNumbers 10 20)).Pairwise (· < ·)) :=
  ⟨⟨by decide, by decide, by decide⟩,
    getPageNumbers_contains_and_sorted 10 20 (by decide) (by decide) (by decide)⟩

end MarketTracker
